import Mathlib

/-!
Shallow embedding of the auto-reposter bot's core components, translated from
the repository sources:

* `src/vk/api.py` — `VKAPI`: `_rate_limit`, `create_post_from_wall`,
  `verify_file_ready`, `_get_upload_url`, `_upload_image`,
  `_post_save_wall_photo`, `_wall_post`, `_cleanup_file`;
* `src/utils/file_validator.py` — `FileValidator.wait_for_file_ready`;
* `src/utils/stats.py` — `Statistics`.

I/O effects (HTTP responses, filesystem reads, clock readings) are supplied as
explicit oracles; time is modelled with rationals, Moscow-midnight day
boundaries with integer day indices; Python exceptions are modelled with
`Except`.
-/

namespace AutoReposter

/-! ## Rate limiter (`VKAPI._rate_limit`, src/vk/api.py lines 50-60)

The deque `_request_times` (maxlen 3, oldest first) is a `List ℚ`.  One call
reads `now`, and if the window holds 3 timestamps whose oldest is less than
1 second old it sleeps `1.1 - elapsed` seconds; it then appends the current
timestamp (the wall clock after the sleep), the deque evicting the oldest
entry when full.  Execution inside a call is idealised as instantaneous, so
the appended timestamp is `now + delay`. -/

/-- Time recorded by one `_rate_limit` call that enters at wall-clock `now`
with sliding window `w` (oldest first): `now` itself, shifted by the sleep
`1.1 - elapsed` when the window is full and its oldest entry is
less than 1 second old. -/
def rateLimitRecord (w : List ℚ) (now : ℚ) : ℚ :=
  if w.length = 3 then
    let oldest := w.headI
    let elapsed := now - oldest
    if elapsed < 1 then now + (11/10 - elapsed) else now
  else now

/-- One `_rate_limit` call: returns the recorded timestamp and the new window
(`deque(maxlen=3)` evicts the oldest entry on append when full). -/
def rateLimitStep (w : List ℚ) (now : ℚ) : ℚ × List ℚ :=
  let t := rateLimitRecord w now
  (t, if w.length = 3 then w.tail ++ [t] else w ++ [t])

/-- Sequential executions of `_rate_limit` on one instance: `gaps` are the
nonnegative delays between one call's recorded timestamp and the next call's
entry time (sequential calls enter no earlier than the previous record).
Returns the list of recorded timestamps in order. -/
def rateLimitRun (w : List ℚ) (last : ℚ) (gaps : List ℚ) : List ℚ :=
  match gaps with
  | [] => []
  | δ :: rest =>
      let p := rateLimitStep w (last + δ)
      p.1 :: rateLimitRun p.2 p.1 rest

/-! ## Statistics (`src/utils/stats.py`)

Wall-clock time enters `Statistics` only through `datetime.now(moscow_tz)`
truncated to midnight, so it is modelled as an integer day index (the Moscow
calendar day).  `daily_reset_date` is `Option ℤ` (`None` before the first
check). -/

structure Stats where
  total_success : ℕ
  total_errors : ℕ
  daily_success : ℕ
  daily_errors : ℕ
  daily_reset_date : Option ℤ
deriving DecidableEq, Repr

/-- `Statistics._check_and_reset_daily` (lines 31-42): if this is the first
run (`daily_reset_date is None`) or a new Moscow day has started
(`daily_reset_date < today_msk`), zero the daily counters and move the reset
boundary to today's midnight. -/
def check_and_reset_daily (s : Stats) (today : ℤ) : Stats :=
  match s.daily_reset_date with
  | none =>
      { s with daily_success := 0, daily_errors := 0, daily_reset_date := some today }
  | some d =>
      if d < today then
        { s with daily_success := 0, daily_errors := 0, daily_reset_date := some today }
      else s

/-- `Statistics.increment_success` (lines 44-48). -/
def increment_success (s : Stats) (today : ℤ) : Stats :=
  let s := check_and_reset_daily s today
  { s with total_success := s.total_success + 1, daily_success := s.daily_success + 1 }

/-- `Statistics.increment_error` (lines 50-54). -/
def increment_error (s : Stats) (today : ℤ) : Stats :=
  let s := check_and_reset_daily s today
  { s with total_errors := s.total_errors + 1, daily_errors := s.daily_errors + 1 }

/-- `Statistics.reset_daily_stats` (lines 208-214): unconditionally zero the
daily counters and set the boundary to today's Moscow midnight. -/
def reset_daily_stats (s : Stats) (today : ℤ) : Stats :=
  { s with daily_success := 0, daily_errors := 0, daily_reset_date := some today }

/-- `Statistics.__init__` (lines 13-29): counters start at zero and the
constructor immediately runs `_check_and_reset_daily`. -/
def initStats (today : ℤ) : Stats :=
  check_and_reset_daily ⟨0, 0, 0, 0, none⟩ today

/-- One recorded outcome: which increment method was called, and the Moscow
day index at the moment of the call. -/
structure StatsEvent where
  success : Bool
  day : ℤ
deriving DecidableEq, Repr

/-- Apply one increment call. -/
def statsStep (s : Stats) (e : StatsEvent) : Stats :=
  if e.success then increment_success s e.day else increment_error s e.day

/-- A sequence of increment calls, in order. -/
def runStats (s : Stats) (evs : List StatsEvent) : Stats :=
  evs.foldl statsStep s

/-- Day index of the last event, or `d` if there are none. -/
def lastDay (d : ℤ) (evs : List StatsEvent) : ℤ :=
  ((evs.map StatsEvent.day).getLast?).getD d

/-! ## Exceptions (`src/vk/exceptions.py` and Python built-ins)

One constructor per exception kind that can cross the step boundaries of the
pipeline.  (In `_get_upload_url`, `_post_save_wall_photo` and `_wall_post`
the `raise VK...Error(..., error_code=error_code, ...)` lines reference the
undefined name `error_code`, so at runtime a `NameError` is raised there
instead of the VK exception; both are `Exception` subclasses and both are
re-raised by the enclosing `except Exception` clause, so the distinction is
invisible to callers and the intended constructor is used here.) -/

inductive VKExc where
  | getUploadURLError
  | savePhotoError
  | postError
  | keyError
  | valueError
  | requestException
  | otherError
deriving DecidableEq, Repr

/-! ## `VKAPI._upload_image` (src/vk/api.py lines 210-319)

The outcome of one POST of the file to the upload URL, as the code observes
it: a network-level failure (`requests.RequestException`, raised by the POST
itself or by `raise_for_status`), some other exception (e.g. the `open`
failing), or a decoded JSON body.  The JSON body's three fields are each
`Option`: `none` models an absent key (`.get` returns `None`), and for
`photo`, `some ""` models a present-but-falsy value (`not result["photo"]`).
-/

inductive UploadAttempt where
  | netError
  | otherError
  | response (server : Option ℤ) (photo : Option String) (hash : Option String)
deriving DecidableEq, Repr

/-- The check `"photo" not in result or not result["photo"]` on the decoded
body: the key is absent or its value is falsy (empty string). -/
def emptyPhoto : Option String → Bool
  | none => true
  | some s => s = ""

/-- Retry loop of `_upload_image`, attempts 1-indexed from `attempt` up to
`maxRetries`; `resp n` is what attempt `n` observes.  Returns the sleep
durations (`2^(attempt-1)` seconds each, in order) and either the raised
exception or the returned
`(result.get("server"), result.get("photo"), result.get("hash"))` triple.
`lastError` is the `last_error` local (used by the dead fall-through raise
after the loop, reachable only if `attempt > maxRetries` from the start). -/
def upload_image_go (resp : ℕ → UploadAttempt) (maxRetries : ℕ)
    (attempt : ℕ) (lastError : Option VKExc) :
    List ℕ × Except VKExc (Option ℤ × Option String × Option String) :=
  if _h : attempt ≤ maxRetries then
    match resp attempt with
    | .response server photo hash =>
        if emptyPhoto photo then
          if attempt < maxRetries then
            let r := upload_image_go resp maxRetries (attempt + 1) (some .valueError)
            (2 ^ (attempt - 1) :: r.1, r.2)
          else ([], .error .valueError)
        else ([], .ok (server, photo, hash))
    | .netError =>
        if attempt < maxRetries then
          let r := upload_image_go resp maxRetries (attempt + 1) (some .requestException)
          (2 ^ (attempt - 1) :: r.1, r.2)
        else ([], .error .requestException)
    | .otherError =>
        if attempt < maxRetries then
          let r := upload_image_go resp maxRetries (attempt + 1) (some .otherError)
          (2 ^ (attempt - 1) :: r.1, r.2)
        else ([], .error .otherError)
  else
    ([], .error (lastError.getD .valueError))
termination_by maxRetries + 1 - attempt
decreasing_by all_goals omega

/-- `_upload_image` with its default `max_retries = 3`: the loop starts at
attempt 1 with `last_error = None`. -/
def upload_image (resp : ℕ → UploadAttempt) (maxRetries : ℕ := 3) :
    List ℕ × Except VKExc (Option ℤ × Option String × Option String) :=
  upload_image_go resp maxRetries 1 none

/-! ## Remaining pipeline steps (src/vk/api.py) -/

/-- Decoded body of `photos.getWallUploadServer`: an `error` key, or the
`response.upload_url` field (`none` models the key path being absent, which
raises `KeyError`). -/
structure UrlResponse where
  hasError : Bool
  uploadUrl : Option String
deriving DecidableEq, Repr

/-- `VKAPI._get_upload_url` (lines 177-208): an error-bearing body raises
`VKGetUploadURLError`; a missing `response`/`upload_url` key raises
`KeyError` (re-raised by the handler); otherwise the URL is returned. -/
def get_upload_url (resp : UrlResponse) : Except VKExc String :=
  if resp.hasError then .error .getUploadURLError
  else
    match resp.uploadUrl with
    | none => .error .keyError
    | some url => .ok url

/-- One element of the `response` array of `photos.saveWallPhoto`. -/
structure PhotoData where
  owner_id : ℤ
  id : ℤ
deriving DecidableEq, Repr

/-- Decoded body of `photos.saveWallPhoto`: an `error` key, or the `response`
array (empty / key missing both make `save_response["response"][0]` raise,
re-raised by the handler). -/
structure SaveResponse where
  hasError : Bool
  items : List PhotoData
deriving DecidableEq, Repr

/-- `VKAPI._post_save_wall_photo` (lines 321-356): an error-bearing body
raises `VKSavePhotoError`; an absent/empty `response` array raises (KeyError
branch); otherwise the attachment string
`f"photo{photo_data['owner_id']}_{photo_data['id']}"` is built from the first
element. -/
def post_save_wall_photo (resp : SaveResponse) : Except VKExc String :=
  if resp.hasError then .error .savePhotoError
  else
    match resp.items with
    | [] => .error .keyError
    | pd :: _ => .ok ("photo" ++ toString pd.owner_id ++ "_" ++ toString pd.id)

/-- Decoded body of `wall.post`; `payload` stands for the whole successful
JSON dictionary that `_wall_post` returns. -/
structure WallResponse where
  hasError : Bool
  payload : ℤ
deriving DecidableEq, Repr

/-- `VKAPI._wall_post` (lines 358-389): an error-bearing body raises
`VKPostError`; otherwise the decoded body is returned. -/
def wall_post (resp : WallResponse) : Except VKExc ℤ :=
  if resp.hasError then .error .postError
  else .ok resp.payload

/-! ## `VKAPI.create_post_from_wall` (src/vk/api.py lines 62-106)

The pipeline is driven against an environment of oracle outcomes, one per
step.  Each step performed is appended to an event trace, so ordering and
frame properties (what was and was not invoked) are observable.
`validateOk` is the result of `FileValidator().validate_image_file`;
`uploadResp` feeds `_upload_image`; the response records feed the other
steps.  `_cleanup_file` (lines 391-399) swallows every exception it hits
internally (`except FileNotFoundError` / `except Exception`), so it has no
failure outcome. -/

inductive PostEvent where
  | rateLimit
  | validateFile
  | getUploadUrl
  | uploadImage
  | savePhoto
  | wallPost
  | cleanupFile
deriving DecidableEq, Repr

structure PostEnv where
  validateOk : Bool
  urlResp : UrlResponse
  uploadResp : ℕ → UploadAttempt
  saveResp : SaveResponse
  wallResp : WallResponse

/-- The `try:` block of `create_post_from_wall` (lines 76-99), as the raised
exception or the returned result, together with the trace of steps performed
inside it.  Mirrors the source order: validate, `_get_upload_url`,
`_upload_image`, the `if not photo` guard, `_post_save_wall_photo`,
`_wall_post`, `_cleanup_file`. -/
def create_post_body (env : PostEnv) : Except VKExc ℤ × List PostEvent :=
  match get_upload_url env.urlResp with
  | .error e => (.error e, [.validateFile, .getUploadUrl])
  | .ok _url =>
      match (upload_image env.uploadResp).2 with
      | .error e => (.error e, [.validateFile, .getUploadUrl, .uploadImage])
      | .ok (_server, photo, _hash) =>
          if emptyPhoto photo then
            (.error .valueError, [.validateFile, .getUploadUrl, .uploadImage])
          else
            match post_save_wall_photo env.saveResp with
            | .error e =>
                (.error e, [.validateFile, .getUploadUrl, .uploadImage, .savePhoto])
            | .ok _attachment =>
                match wall_post env.wallResp with
                | .error e =>
                    (.error e,
                     [.validateFile, .getUploadUrl, .uploadImage, .savePhoto, .wallPost])
                | .ok result =>
                    (.ok result,
                     [.validateFile, .getUploadUrl, .uploadImage, .savePhoto, .wallPost,
                      .cleanupFile])

/-- `create_post_from_wall`: `await self._rate_limit()` first (outside the
`try`), then the body; a failed validation returns `None` early (line 81);
the `except KeyError` / `except Exception` handlers (lines 101-106) turn any
raised exception into `None`.  The "if not photo" guard raising nothing —
it just returns `None` — is already folded into `create_post_body` as an
error outcome, which the handler likewise maps to `None`.  Returns the
published result (or `None`) and the full event trace. -/
def create_post_from_wall (env : PostEnv) : Option ℤ × List PostEvent :=
  if env.validateOk then
    match create_post_body env with
    | (.error _, tr) => (none, .rateLimit :: tr)
    | (.ok result, tr) => (some result, .rateLimit :: tr)
  else (none, [.rateLimit, .validateFile])

/-! ## `VKAPI.verify_file_ready` (src/vk/api.py lines 108-139)

`readOk n` tells whether attempt `n` (0-indexed, as in the Python `range`)
manages to `open` the file and `read(1024)` without an `IOError`/`OSError`.
The model returns the boolean result together with the number of attempts
consumed, so "returns on the first successful attempt" is observable.  Note
the loop consults nothing but `readOk` — no file sizes are compared. -/

def verify_file_ready_go (readOk : ℕ → Bool) (maxAttempts attempt : ℕ) : Bool × ℕ :=
  if _h : attempt < maxAttempts then
    if readOk attempt then (true, attempt + 1)
    else verify_file_ready_go readOk maxAttempts (attempt + 1)
  else (false, attempt)
termination_by maxAttempts - attempt
decreasing_by omega

/-- `verify_file_ready` (default `max_attempts = 3`). -/
def verify_file_ready (readOk : ℕ → Bool) (maxAttempts : ℕ := 3) : Bool × ℕ :=
  verify_file_ready_go readOk maxAttempts 0

/-! ## `FileValidator.wait_for_file_ready` (src/utils/file_validator.py lines 26-102)

Attempt `n` (0-indexed) observes: whether the path exists (`exists_ n`), the
size `path.stat().st_size` (`size n`), and whether opening and reading the
first chunk yields data (`readOk n`).  `prev_size` starts at 0 and is
updated only on attempts that pass all three checks; the ready condition is
`attempt > 0 and current_size == prev_size`.  The result and the number of
attempts consumed are returned. -/

def wait_for_file_ready_go (exists_ : ℕ → Bool) (size : ℕ → ℕ) (readOk : ℕ → Bool)
    (maxAttempts attempt prevSize : ℕ) : Bool × ℕ :=
  if _h : attempt < maxAttempts then
    if !(exists_ attempt) then
      wait_for_file_ready_go exists_ size readOk maxAttempts (attempt + 1) prevSize
    else
      let currentSize := size attempt
      if currentSize = 0 then
        wait_for_file_ready_go exists_ size readOk maxAttempts (attempt + 1) prevSize
      else if !(readOk attempt) then
        wait_for_file_ready_go exists_ size readOk maxAttempts (attempt + 1) prevSize
      else if attempt > 0 ∧ currentSize = prevSize then (true, attempt + 1)
      else wait_for_file_ready_go exists_ size readOk maxAttempts (attempt + 1) currentSize
  else (false, attempt)
termination_by maxAttempts - attempt
decreasing_by all_goals omega

/-- `wait_for_file_ready`: the loop starts at attempt 0 with `prev_size = 0`. -/
def wait_for_file_ready (exists_ : ℕ → Bool) (size : ℕ → ℕ) (readOk : ℕ → Bool)
    (maxAttempts : ℕ) : Bool × ℕ :=
  wait_for_file_ready_go exists_ size readOk maxAttempts 0 0

/-- Which trace events are VK API method calls (the three remote methods of
the pipeline: `photos.getWallUploadServer`, `photos.saveWallPhoto`,
`wall.post`). -/
def vkCall : PostEvent → Bool
  | .getUploadUrl => true
  | .savePhoto => true
  | .wallPost => true
  | _ => false

/-- Helper for `vkCallsPreceded`: every VK API call in the list is
immediately preceded by a rate-limit acquisition, `prev` being the event
just before the list. -/
def vkCallsPrecededFrom (prev : PostEvent) : List PostEvent → Bool
  | [] => true
  | e :: rest => ((!vkCall e) || (prev = PostEvent.rateLimit)) && vkCallsPrecededFrom e rest

/-- "Each VK API method call in the trace is immediately preceded by a
`_rate_limit` acquisition" (a VK call as the very first event has no
preceding acquisition). -/
def vkCallsPreceded : List PostEvent → Bool
  | [] => true
  | e :: rest => (!vkCall e) && vkCallsPrecededFrom e rest

section LoopLemmas

/-- `verify_file_ready` loop: once past the last attempt the loop exits with
`False`. -/
lemma verify_go_terminal (readOk : ℕ → Bool) (maxAttempts attempt : ℕ)
    (h : maxAttempts ≤ attempt) :
    verify_file_ready_go readOk maxAttempts attempt = (false, attempt) := by
  unfold verify_file_ready_go
  simp [Nat.not_lt.mpr h]

/-- `verify_file_ready` loop: a failing attempt moves on to the next one. -/
lemma verify_go_fail (readOk : ℕ → Bool) (maxAttempts attempt : ℕ)
    (h : attempt < maxAttempts) (hf : readOk attempt = false) :
    verify_file_ready_go readOk maxAttempts attempt =
      verify_file_ready_go readOk maxAttempts (attempt + 1) := by
  rw [verify_file_ready_go]
  simp [h, hf]

/-- `verify_file_ready` loop: a successful read returns at once. -/
lemma verify_go_succ (readOk : ℕ → Bool) (maxAttempts attempt : ℕ)
    (h : attempt < maxAttempts) (ht : readOk attempt = true) :
    verify_file_ready_go readOk maxAttempts attempt = (true, attempt + 1) := by
  rw [verify_file_ready_go]
  simp [h, ht]

lemma verify_go_all_fail (readOk : ℕ → Bool) (maxAttempts : ℕ) :
    ∀ fuel attempt, maxAttempts - attempt = fuel → attempt ≤ maxAttempts →
    (∀ i, attempt ≤ i → i < maxAttempts → readOk i = false) →
    verify_file_ready_go readOk maxAttempts attempt = (false, maxAttempts) := by
  intro fuel
  induction fuel with
  | zero =>
      intro attempt h0 hle _hf
      have h2 : attempt = maxAttempts := by omega
      rw [verify_go_terminal readOk maxAttempts attempt (by omega), h2]
  | succ n ih =>
      intro attempt h0 _hle hf
      have hlt : attempt < maxAttempts := by omega
      rw [verify_go_fail readOk maxAttempts attempt hlt (hf attempt le_rfl hlt)]
      exact ih (attempt + 1) (by omega) (by omega) (fun i hi₁ hi₂ => hf i (by omega) hi₂)

lemma verify_go_reach (readOk : ℕ → Bool) (maxAttempts i : ℕ)
    (hi : i < maxAttempts) (ht : readOk i = true) :
    ∀ fuel attempt, i - attempt = fuel → attempt ≤ i →
    (∀ j, attempt ≤ j → j < i → readOk j = false) →
    verify_file_ready_go readOk maxAttempts attempt = (true, i + 1) := by
  intro fuel
  induction fuel with
  | zero =>
      intro attempt h0 hle _hf
      have : attempt = i := by omega
      subst this
      exact verify_go_succ readOk maxAttempts attempt hi ht
  | succ n ih =>
      intro attempt h0 hle hf
      have hlt : attempt < i := by omega
      rw [verify_go_fail readOk maxAttempts attempt (by omega) (hf attempt le_rfl hlt)]
      exact ih (attempt + 1) (by omega) (by omega) (fun j hj₁ hj₂ => hf j (by omega) hj₂)

/-- `wait_for_file_ready` loop: once past the last attempt the loop exits
with `False`. -/
lemma wait_go_terminal (exists_ : ℕ → Bool) (size : ℕ → ℕ) (readOk : ℕ → Bool)
    (maxAttempts attempt prevSize : ℕ) (h : maxAttempts ≤ attempt) :
    wait_for_file_ready_go exists_ size readOk maxAttempts attempt prevSize =
      (false, attempt) := by
  unfold wait_for_file_ready_go
  simp [Nat.not_lt.mpr h]

/-- `wait_for_file_ready` loop, attempt on which the file exists, is
non-empty and is readable: either the stability test fires and the loop
returns `True`, or the size is recorded and the loop continues. -/
lemma wait_go_step (exists_ : ℕ → Bool) (size : ℕ → ℕ) (readOk : ℕ → Bool)
    (maxAttempts attempt prevSize : ℕ) (h : attempt < maxAttempts)
    (hex : exists_ attempt = true) (hsz : size attempt ≠ 0)
    (hro : readOk attempt = true) :
    wait_for_file_ready_go exists_ size readOk maxAttempts attempt prevSize =
      if 0 < attempt ∧ size attempt = prevSize then (true, attempt + 1)
      else wait_for_file_ready_go exists_ size readOk maxAttempts (attempt + 1)
        (size attempt) := by
  rw [wait_for_file_ready_go]
  simp [h, hex, hsz, hro]

lemma wait_go_no_repeat (size : ℕ → ℕ) (maxAttempts : ℕ)
    (hpos : ∀ i, i < maxAttempts → 0 < size i) :
    ∀ fuel attempt, maxAttempts - attempt = fuel → 1 ≤ attempt → attempt ≤ maxAttempts →
    (∀ i, attempt ≤ i → i < maxAttempts → size i ≠ size (i - 1)) →
    wait_for_file_ready_go (fun _ => true) size (fun _ => true) maxAttempts attempt
      (size (attempt - 1)) = (false, maxAttempts) := by
  intro fuel
  induction fuel with
  | zero =>
      intro attempt h0 _h1 hle _hne
      have h2 : attempt = maxAttempts := by omega
      rw [wait_go_terminal _ _ _ _ _ _ (by omega), h2]
  | succ n ih =>
      intro attempt h0 h1 _hle hne
      have hlt : attempt < maxAttempts := by omega
      rw [wait_go_step _ _ _ _ _ _ hlt rfl (hpos attempt hlt).ne' rfl]
      simp only [hne attempt le_rfl hlt, and_false, if_false]
      have hs : size attempt = size ((attempt + 1) - 1) := by simp
      rw [hs]
      exact ih (attempt + 1) (by omega) (by omega) (by omega)
        (fun i hi₁ hi₂ => hne i (by omega) hi₂)

lemma wait_go_first_repeat (size : ℕ → ℕ) (maxAttempts i : ℕ)
    (hpos : ∀ j, j < maxAttempts → 0 < size j)
    (hi : i < maxAttempts) (h0i : 0 < i) (heq : size i = size (i - 1)) :
    ∀ fuel attempt, i - attempt = fuel → 1 ≤ attempt → attempt ≤ i →
    (∀ j, attempt ≤ j → j < i → size j ≠ size (j - 1)) →
    wait_for_file_ready_go (fun _ => true) size (fun _ => true) maxAttempts attempt
      (size (attempt - 1)) = (true, i + 1) := by
  intro fuel
  induction fuel with
  | zero =>
      intro attempt h0 h1 hle _hne
      have h2 : attempt = i := by omega
      subst h2
      rw [wait_go_step _ _ _ _ _ _ (by omega) rfl (hpos attempt (by omega)).ne' rfl]
      simp [h1, heq]
      intro hc
      omega
  | succ n ih =>
      intro attempt h0 h1 hle hne
      have hlt : attempt < i := by omega
      rw [wait_go_step _ _ _ _ _ _ (by omega) rfl (hpos attempt (by omega)).ne' rfl]
      simp only [hne attempt le_rfl hlt, and_false, if_false]
      have hs : size attempt = size ((attempt + 1) - 1) := by simp
      rw [hs]
      exact ih (attempt + 1) (by omega) (by omega) (by omega)
        (fun j hj₁ hj₂ => hne j (by omega) hj₂)

end LoopLemmas

/-- C9: `VKAPI.verify_file_ready` returns `True` on the first attempt at
which opening the file and reading its first 1024 bytes succeeds — including
the very first attempt, with no size comparison across attempts (the loop
observes nothing but per-attempt read success) — and returns `False` only
when every one of the `max_attempts` open-and-read attempts raises
`IOError`/`OSError`. -/
theorem verify_file_ready_first_success (readOk : ℕ → Bool) (maxAttempts : ℕ) :
    ((∀ i, i < maxAttempts → readOk i = false) →
      verify_file_ready readOk maxAttempts = (false, maxAttempts)) ∧
    (∀ i, i < maxAttempts → readOk i = true → (∀ j, j < i → readOk j = false) →
      verify_file_ready readOk maxAttempts = (true, i + 1)) := by
  constructor
  · intro hf
    exact verify_go_all_fail readOk maxAttempts maxAttempts 0 (by omega) (by omega)
      (fun i _ hi => hf i hi)
  · intro i hi ht hf
    exact verify_go_reach readOk maxAttempts i hi ht i 0 (by omega) (by omega)
      (fun j _ hj => hf j hj)

/-- Witness for C9: a file readable already on the very first attempt is
reported ready after one attempt. -/
theorem verify_file_ready_first_success_witness :
    verify_file_ready (fun _ => true) 3 = (true, 1) :=
  (verify_file_ready_first_success (fun _ => true) 3).2 0 (by omega) rfl
    (fun j hj => absurd hj (by omega))

/-- C6: for a file that exists, is non-empty and is readable on each
attempt, `FileValidator.wait_for_file_ready` returns `False` when the
observed size changes on every attempt, and returns `True` on the first
attempt, other than the first overall, at which the observed size equals the
previous attempt's size. -/
theorem wait_for_file_ready_size_stability (size : ℕ → ℕ) (maxAttempts : ℕ)
    (hpos : ∀ i, i < maxAttempts → 0 < size i) :
    ((∀ i, 0 < i → i < maxAttempts → size i ≠ size (i - 1)) →
      wait_for_file_ready (fun _ => true) size (fun _ => true) maxAttempts =
        (false, maxAttempts)) ∧
    (∀ i, 0 < i → i < maxAttempts → size i = size (i - 1) →
      (∀ j, 0 < j → j < i → size j ≠ size (j - 1)) →
      wait_for_file_ready (fun _ => true) size (fun _ => true) maxAttempts =
        (true, i + 1)) := by
  constructor
  · intro hne
    unfold wait_for_file_ready
    rcases Nat.eq_zero_or_pos maxAttempts with h0 | h0
    · rw [wait_go_terminal _ _ _ _ _ _ (by omega), h0]
    · rw [wait_go_step _ _ _ _ _ _ h0 rfl (hpos 0 h0).ne' rfl]
      simp only [lt_self_iff_false, false_and, if_false]
      have hs : size 0 = size (1 - 1) := by norm_num
      rw [hs]
      exact wait_go_no_repeat size maxAttempts hpos (maxAttempts - 1) 1 (by omega)
        (by omega) (by omega) (fun i hi₁ hi₂ => hne i (by omega) hi₂)
  · intro i h0i hi heq hne
    unfold wait_for_file_ready
    have h0 : 0 < maxAttempts := by omega
    rw [wait_go_step _ _ _ _ _ _ h0 rfl (hpos 0 h0).ne' rfl]
    simp only [lt_self_iff_false, false_and, if_false]
    have hs : size 0 = size (1 - 1) := by norm_num
    rw [hs]
    exact wait_go_first_repeat size maxAttempts i hpos hi h0i heq (i - 1) 1 (by omega)
      (by omega) h0i (fun j hj₁ hj₂ => hne j (by omega) hj₂)

/-- Witness for C6: sizes 1, 2, 2 on attempts 0, 1, 2 — the size first
repeats on attempt 2, so the file is declared ready there. -/
theorem wait_for_file_ready_size_stability_witness :
    wait_for_file_ready (fun _ => true) (fun i => if i = 0 then 1 else 2)
      (fun _ => true) 3 = (true, 3) :=
  (wait_for_file_ready_size_stability (fun i => if i = 0 then 1 else 2) 3
    (fun i _ => by by_cases h : i = 0 <;> simp [h])).2 2 (by omega) (by omega)
    (by decide)
    (fun j hj₁ hj₂ => by
      have hj : j = 1 := by omega
      subst hj
      decide)

/-- C1: in `VKAPI._upload_image` with `max_retries = 3` (attempts
1-indexed), an empty/missing `photo` field is transient on every attempt
before the last — the call sleeps `2^(attempt-1)` seconds and retries — and
only on the final attempt is it raised as the terminal failure
(`ValueError`); a non-empty `photo` on any attempt returns that attempt's
`(server, photo, hash)` immediately, short-circuiting the rest.  In
particular, empty photos on attempts 1-2 and a valid token on attempt 3
return the attempt-3 payload (after sleeps of 1 and 2 seconds) with no
exception. -/
theorem upload_image_empty_photo_transient :
    (∀ (resp : ℕ → UploadAttempt) (s1 : Option ℤ) (p1 h1 : Option String)
      (s2 : Option ℤ) (p2 h2 : Option String) (s : Option ℤ) (p : String)
      (hsh : Option String),
      resp 1 = .response s1 p1 h1 → emptyPhoto p1 = true →
      resp 2 = .response s2 p2 h2 → emptyPhoto p2 = true →
      resp 3 = .response s (some p) hsh → p ≠ "" →
      upload_image resp 3 = ([1, 2], .ok (s, some p, hsh)))
  ∧ (∀ (resp : ℕ → UploadAttempt) (s : Option ℤ) (p : String) (hsh : Option String),
      resp 1 = .response s (some p) hsh → p ≠ "" →
      upload_image resp 3 = ([], .ok (s, some p, hsh)))
  ∧ (∀ (resp : ℕ → UploadAttempt) (s1 : Option ℤ) (p1 h1 : Option String)
      (s2 : Option ℤ) (p2 h2 : Option String) (s3 : Option ℤ) (p3 h3 : Option String),
      resp 1 = .response s1 p1 h1 → emptyPhoto p1 = true →
      resp 2 = .response s2 p2 h2 → emptyPhoto p2 = true →
      resp 3 = .response s3 p3 h3 → emptyPhoto p3 = true →
      upload_image resp 3 = ([1, 2], .error .valueError)) := by
  refine ⟨?_, ?_, ?_⟩
  · intro resp s1 p1 h1 s2 p2 h2 s p hsh hr1 he1 hr2 he2 hr3 hp
    have hps : emptyPhoto (some p) = false := by simp [emptyPhoto, hp]
    simp [upload_image, upload_image_go, hr1, he1, hr2, he2, hr3, hps]
  · intro resp s p hsh hr1 hp
    have hps : emptyPhoto (some p) = false := by simp [emptyPhoto, hp]
    simp [upload_image, upload_image_go, hr1, hps]
  · intro resp s1 p1 h1 s2 p2 h2 s3 p3 h3 hr1 he1 hr2 he2 hr3 he3
    simp [upload_image, upload_image_go, hr1, he1, hr2, he2, hr3, he3]

/-- Witness for C1: empty-photo responses on attempts 1 and 2 and a valid
token on attempt 3 yield the attempt-3 payload. -/
theorem upload_image_empty_photo_transient_witness :
    upload_image
      (fun n => if n = 3 then .response (some 7) (some "tok") (some "hs")
                else .response none (some "") none) 3 =
      ([1, 2], .ok (some 7, some "tok", some "hs")) :=
  upload_image_empty_photo_transient.1 _ none (some "") none none (some "") none
    (some 7) "tok" (some "hs") rfl rfl rfl rfl rfl (by decide)

/-- C10: the success condition of `_upload_image` inspects only the `photo`
field — an HTTP-successful response with a present, non-empty `photo`
returns `(result.get("server"), photo, result.get("hash"))` on that attempt,
so missing `server`/`hash` fields (here arbitrary `Option` values, `none`
included) are still a successful upload whose `None` components are passed
onward. -/
theorem upload_image_checks_only_photo (resp : ℕ → UploadAttempt)
    (s : Option ℤ) (p : String) (hsh : Option String)
    (hr1 : resp 1 = .response s (some p) hsh) (hp : p ≠ "") :
    upload_image resp 3 = ([], .ok (s, some p, hsh)) := by
  simp [upload_image, upload_image_go, hr1, emptyPhoto, hp]

/-- Witness for C10: a response with non-empty `photo` but no `server` and
no `hash` keys still succeeds, with `none` in both components. -/
theorem upload_image_checks_only_photo_witness :
    upload_image (fun _ => .response none (some "tok") none) 3 =
      ([], .ok (none, some "tok", none)) :=
  upload_image_checks_only_photo (fun _ => .response none (some "tok") none)
    none "tok" none rfl (by decide)

/-- C7: the daily rollover check is idempotent — running
`_check_and_reset_daily` twice in immediate succession (wall clock in the
same Moscow day) equals running it once, and a forced `reset_daily_stats`
followed by the lazy check on the same day leaves counters and reset
boundary unchanged. -/
theorem check_and_reset_daily_idempotent (s : Stats) (today : ℤ) :
    check_and_reset_daily (check_and_reset_daily s today) today =
      check_and_reset_daily s today ∧
    check_and_reset_daily (reset_daily_stats s today) today =
      reset_daily_stats s today := by
  constructor
  · unfold check_and_reset_daily
    match h : s.daily_reset_date with
    | none => simp
    | some d =>
        by_cases hd : d < today
        · simp [hd]
        · simp [hd, h]
  · unfold check_and_reset_daily reset_daily_stats
    simp

/-- The `try:` block of `create_post_from_wall` performs no `_rate_limit`
acquisition — the only acquisition is the one before the `try`. -/
lemma rateLimit_not_mem_body (env : PostEnv) :
    PostEvent.rateLimit ∉ (create_post_body env).2 := by
  unfold create_post_body
  repeat' split
  all_goals simp

/-- C4: every exception raised inside `create_post_from_wall`'s `try:` block
(re-validation and all pipeline steps) is caught by the top-level
`except KeyError` / `except Exception` handlers and turned into `None`; no
exception propagates to the caller. -/
theorem create_post_from_wall_catches_exceptions (env : PostEnv) (e : VKExc)
    (h : (create_post_body env).1 = .error e) :
    (create_post_from_wall env).1 = none := by
  unfold create_post_from_wall
  by_cases hv : env.validateOk
  · simp only [hv, if_true]
    rcases hb : create_post_body env with ⟨res, tr⟩
    rw [hb] at h
    simp only at h
    cases res with
    | error e' => simp
    | ok r => exact absurd h (by simp)
  · simp [hv]

/-- Witness for C4: an error-bearing `getWallUploadServer` response raises
`VKGetUploadURLError` inside the `try:` block and the call returns `None`. -/
theorem create_post_from_wall_catches_exceptions_witness :
    (create_post_from_wall
      ⟨true, ⟨true, none⟩, (fun _ => UploadAttempt.netError), ⟨false, []⟩,
        ⟨false, 0⟩⟩).1 = none :=
  create_post_from_wall_catches_exceptions _ .getUploadURLError rfl

/-- C5: when the save step's response is error-bearing, `create_post_from_wall`
returns `None`, the wall-post step is never invoked, and `_cleanup_file` is
not called (the local file is left on disk). -/
theorem save_error_no_post_no_cleanup (env : PostEnv) (url : String)
    (server : Option ℤ) (photo : Option String) (hash : Option String)
    (hurl : get_upload_url env.urlResp = .ok url)
    (hup : (upload_image env.uploadResp).2 = .ok (server, photo, hash))
    (hph : emptyPhoto photo = false)
    (hsave : env.saveResp.hasError = true) :
    (create_post_from_wall env).1 = none ∧
    PostEvent.wallPost ∉ (create_post_from_wall env).2 ∧
    PostEvent.cleanupFile ∉ (create_post_from_wall env).2 := by
  have hbody : create_post_body env =
      (.error .savePhotoError,
       [.validateFile, .getUploadUrl, .uploadImage, .savePhoto]) := by
    simp [create_post_body, hurl, hup, hph, post_save_wall_photo, hsave]
  by_cases hv : env.validateOk <;> simp [create_post_from_wall, hv, hbody]

/-- Witness for C5: a happy path up to the save step, whose response carries
an `error` key — `None` is returned, no wall post, no file deletion. -/
theorem save_error_no_post_no_cleanup_witness :
    (create_post_from_wall
      ⟨true, ⟨false, some "u"⟩,
        (fun _ => UploadAttempt.response (some 1) (some "p") (some "h")),
        ⟨true, []⟩, ⟨false, 0⟩⟩).1 = none ∧
    PostEvent.wallPost ∉ (create_post_from_wall
      ⟨true, ⟨false, some "u"⟩,
        (fun _ => UploadAttempt.response (some 1) (some "p") (some "h")),
        ⟨true, []⟩, ⟨false, 0⟩⟩).2 ∧
    PostEvent.cleanupFile ∉ (create_post_from_wall
      ⟨true, ⟨false, some "u"⟩,
        (fun _ => UploadAttempt.response (some 1) (some "p") (some "h")),
        ⟨true, []⟩, ⟨false, 0⟩⟩).2 :=
  save_error_no_post_no_cleanup _ "u" (some 1) (some "p") (some "h") rfl
    (by simp [upload_image, upload_image_go, emptyPhoto]) (by simp [emptyPhoto]) rfl

/-- Counterexample to C8 as stated: on a fully successful execution of
`create_post_from_wall`, the VK API method calls are not each immediately
preceded by a `_rate_limit` acquisition — only one acquisition happens, at
the very start, so `photos.saveWallPhoto` and `wall.post` (and even
`photos.getWallUploadServer`, which is separated from the acquisition by the
re-validation step) have no acquisition directly before them. -/
theorem create_post_vk_calls_not_each_rate_limited :
    vkCallsPreceded (create_post_from_wall
      ⟨true, ⟨false, some "u"⟩,
        (fun _ => UploadAttempt.response (some 1) (some "p") (some "h")),
        ⟨false, [⟨-2, 5⟩]⟩, ⟨false, 42⟩⟩).2 = false := by
  simp [create_post_from_wall, create_post_body, get_upload_url, upload_image,
    upload_image_go, post_save_wall_photo, wall_post, emptyPhoto,
    vkCallsPreceded, vkCallsPrecededFrom, vkCall]

/-- C8 (amended): rate limiting is enforced synchronously once per
`create_post_from_wall` invocation — `_rate_limit` records exactly one
timestamp, as the very first action, before any VK API method call; the
three VK API calls are not each individually preceded by an acquisition. -/
theorem create_post_single_rate_limit_acquisition (env : PostEnv) :
    (create_post_from_wall env).2.head? = some .rateLimit ∧
    List.count PostEvent.rateLimit (create_post_from_wall env).2 = 1 := by
  unfold create_post_from_wall
  by_cases hv : env.validateOk
  · simp only [hv, if_true]
    rcases hb : create_post_body env with ⟨res, tr⟩
    have hnm : PostEvent.rateLimit ∉ tr := by
      have hmem := rateLimit_not_mem_body env
      rw [hb] at hmem
      exact hmem
    cases res <;>
      simp [List.count_cons, List.count_eq_zero.mpr hnm]
  · simp [hv]

lemma getLast?_getD_cons (l : List ℤ) : ∀ a d : ℤ,
    (((a :: l).getLast?).getD d) = ((l.getLast?).getD a) := by
  induction l with
  | nil => intro a d; rfl
  | cons b m ih =>
      intro a d
      rw [List.getLast?_cons_cons, ih b d, ih b a]

lemma lastDay_cons (d : ℤ) (e : StatsEvent) (tl : List StatsEvent) :
    lastDay d (e :: tl) = lastDay e.day tl := by
  simp only [lastDay, List.map_cons]
  exact getLast?_getD_cons (tl.map StatsEvent.day) e.day d

lemma chain_le_getLast (l : List ℤ) : ∀ d : ℤ, List.Chain' (· ≤ ·) (d :: l) →
    d ≤ (l.getLast?).getD d := by
  induction l with
  | nil => intro d _; exact le_rfl
  | cons b m ih =>
      intro d hc
      rw [List.chain'_cons] at hc
      rw [getLast?_getD_cons m b d]
      exact le_trans hc.1 (ih b hc.2)

lemma le_lastDay (d : ℤ) (evs : List StatsEvent)
    (hc : List.Chain' (· ≤ ·) (d :: evs.map StatsEvent.day)) :
    d ≤ lastDay d evs :=
  chain_le_getLast (evs.map StatsEvent.day) d hc

/-- Field-level behaviour of one increment call when the clock has not moved
backwards past the stored reset boundary. -/
lemma statsStep_fields (s : Stats) (e : StatsEvent) (d : ℤ)
    (hs : s.daily_reset_date = some d) (hle : d ≤ e.day) :
    (statsStep s e).daily_reset_date = some e.day ∧
    (statsStep s e).total_success = s.total_success + (if e.success then 1 else 0) ∧
    (statsStep s e).total_errors = s.total_errors + (if e.success then 0 else 1) ∧
    (statsStep s e).daily_success =
      (if e.day = d then s.daily_success else 0) + (if e.success then 1 else 0) ∧
    (statsStep s e).daily_errors =
      (if e.day = d then s.daily_errors else 0) + (if e.success then 0 else 1) := by
  unfold statsStep increment_success increment_error check_and_reset_daily
  rw [hs]
  by_cases hlt : d < e.day
  · have hne : ¬ e.day = d := by omega
    by_cases hsucc : e.success <;> simp [hlt, hne, hsucc]
  · have heq : e.day = d := by omega
    by_cases hsucc : e.success <;> simp [hlt, heq, hsucc, hs]

/-- Invariant of a monotone-clock sequence of increment calls: totals
accumulate over the whole sequence, the reset boundary tracks the last day
seen, and the daily counters accumulate only matches on that last day
(carrying over the pre-existing daily counts exactly when no rollover ever
fires). -/
lemma runStats_fields (evs : List StatsEvent) :
    ∀ (s : Stats) (d : ℤ), s.daily_reset_date = some d →
    List.Chain' (· ≤ ·) (d :: evs.map StatsEvent.day) →
    (runStats s evs).daily_reset_date = some (lastDay d evs) ∧
    (runStats s evs).total_success = s.total_success + evs.countP (fun x => x.success) ∧
    (runStats s evs).total_errors = s.total_errors + evs.countP (fun x => !x.success) ∧
    (runStats s evs).daily_success =
      (if lastDay d evs = d then s.daily_success else 0) +
        evs.countP (fun x => x.success && decide (x.day = lastDay d evs)) ∧
    (runStats s evs).daily_errors =
      (if lastDay d evs = d then s.daily_errors else 0) +
        evs.countP (fun x => !x.success && decide (x.day = lastDay d evs)) := by
  induction evs with
  | nil =>
      intro s d hs _
      simp [runStats, lastDay, hs]
  | cons e tl ih =>
      intro s d hs hc
      rw [List.map_cons, List.chain'_cons] at hc
      obtain ⟨hd, hc⟩ := hc
      have hstep := statsStep_fields s e d hs hd
      have hrun : runStats s (e :: tl) = runStats (statsStep s e) tl := rfl
      have ihs := ih (statsStep s e) e.day hstep.1 hc
      have hL : lastDay d (e :: tl) = lastDay e.day tl := lastDay_cons d e tl
      have hLe : e.day ≤ lastDay e.day tl := le_lastDay e.day tl hc
      set L := lastDay e.day tl with hLdef
      rw [hrun, hL]
      refine ⟨ihs.1, ?_, ?_, ?_, ?_⟩
      · rw [ihs.2.1, hstep.2.1, List.countP_cons]
        by_cases hsucc : e.success <;> simp [hsucc] <;> omega
      · rw [ihs.2.2.1, hstep.2.2.1, List.countP_cons]
        by_cases hsucc : e.success <;> simp [hsucc] <;> omega
      · rw [ihs.2.2.2.1, hstep.2.2.2.1, List.countP_cons]
        by_cases hLe' : L = e.day
        · by_cases hed : e.day = d
          · have hLd : L = d := by omega
            by_cases hsucc : e.success <;> simp [hLe', hed, hLd, hsucc] <;> omega
          · have hLd : ¬ L = d := by omega
            by_cases hsucc : e.success <;> simp [hLe', hed, hLd, hsucc] <;> omega
        · have hLd : ¬ L = d := by omega
          have hdL : ¬ e.day = L := fun h => hLe' h.symm
          by_cases hsucc : e.success <;> simp [hLe', hLd, hdL, hsucc] <;> omega
      · rw [ihs.2.2.2.2, hstep.2.2.2.2, List.countP_cons]
        by_cases hLe' : L = e.day
        · by_cases hed : e.day = d
          · have hLd : L = d := by omega
            by_cases hsucc : e.success <;> simp [hLe', hed, hLd, hsucc] <;> omega
          · have hLd : ¬ L = d := by omega
            by_cases hsucc : e.success <;> simp [hLe', hed, hLd, hsucc] <;> omega
        · have hLd : ¬ L = d := by omega
          have hdL : ¬ e.day = L := fun h => hLe' h.symm
          by_cases hsucc : e.success <;> simp [hLe', hLd, hdL, hsucc] <;> omega

/-- C3: for every monotone-clock sequence of `increment_success` /
`increment_error` calls spanning day boundaries, the daily counters equal
exactly the matching calls made since the most recent Moscow midnight (the
calls whose day equals the last day observed), the total counters equal the
counts over the full sequence, the totals only ever increase, and the daily
counters reset to 0 at rollover. -/
theorem stats_daily_total_counters (d0 : ℤ) (evs : List StatsEvent)
    (hmono : List.Chain' (· ≤ ·) (d0 :: evs.map StatsEvent.day)) :
    ((runStats (initStats d0) evs).total_success =
        evs.countP (fun x => x.success) ∧
      (runStats (initStats d0) evs).total_errors =
        evs.countP (fun x => !x.success) ∧
      (runStats (initStats d0) evs).daily_success =
        evs.countP (fun x => x.success && decide (x.day = lastDay d0 evs)) ∧
      (runStats (initStats d0) evs).daily_errors =
        evs.countP (fun x => !x.success && decide (x.day = lastDay d0 evs))) ∧
    (∀ (s : Stats) (e : StatsEvent),
      s.total_success ≤ (statsStep s e).total_success ∧
      s.total_errors ≤ (statsStep s e).total_errors) ∧
    (∀ (s : Stats) (d today : ℤ), s.daily_reset_date = some d → d < today →
      (check_and_reset_daily s today).daily_success = 0 ∧
      (check_and_reset_daily s today).daily_errors = 0) := by
  refine ⟨?_, ?_, ?_⟩
  · have hinit : (initStats d0).daily_reset_date = some d0 := rfl
    have h := runStats_fields evs (initStats d0) d0 hinit hmono
    have hts : (initStats d0).total_success = 0 := rfl
    have hte : (initStats d0).total_errors = 0 := rfl
    have hds : (initStats d0).daily_success = 0 := rfl
    have hde : (initStats d0).daily_errors = 0 := rfl
    refine ⟨?_, ?_, ?_, ?_⟩
    · rw [h.2.1, hts]; omega
    · rw [h.2.2.1, hte]; omega
    · rw [h.2.2.2.1, hds]
      by_cases hLd : lastDay d0 evs = d0 <;> simp [hLd]
    · rw [h.2.2.2.2, hde]
      by_cases hLd : lastDay d0 evs = d0 <;> simp [hLd]
  · intro s e
    unfold statsStep increment_success increment_error check_and_reset_daily
    cases hs : s.daily_reset_date with
    | none => by_cases hsucc : e.success <;> simp [hsucc]
    | some d =>
        by_cases hlt : d < e.day <;> by_cases hsucc : e.success <;>
          simp [hlt, hsucc]
  · intro s d today hs hlt
    unfold check_and_reset_daily
    rw [hs]
    simp [hlt]

/-- Witness for C3: two successes on day 0 and 1, one error on day 1 — the
totals count the whole sequence while the daily bucket holds only day-1
events. -/
theorem stats_daily_total_counters_witness :
    (runStats (initStats 0) [⟨true, 0⟩, ⟨true, 1⟩, ⟨false, 1⟩]).total_success = 2 ∧
    (runStats (initStats 0) [⟨true, 0⟩, ⟨true, 1⟩, ⟨false, 1⟩]).total_errors = 1 ∧
    (runStats (initStats 0) [⟨true, 0⟩, ⟨true, 1⟩, ⟨false, 1⟩]).daily_success = 1 ∧
    (runStats (initStats 0) [⟨true, 0⟩, ⟨true, 1⟩, ⟨false, 1⟩]).daily_errors = 1 := by
  have h := (stats_daily_total_counters 0 [⟨true, 0⟩, ⟨true, 1⟩, ⟨false, 1⟩]
    (by norm_num [List.chain'_cons])).1
  refine ⟨?_, ?_, ?_, ?_⟩
  · rw [h.1]; decide
  · rw [h.2.1]; decide
  · rw [h.2.2.1]; decide
  · rw [h.2.2.2]; decide

/-- A nondecreasing list of timestamps in which every entry is at least 1
ahead of the entry three places earlier has at most 3 entries inside any
half-open window `[s, s+1)`. -/
lemma sorted_spaced_count_le_three (s : ℚ) :
    ∀ l : List ℚ, List.Pairwise (· ≤ ·) l →
    (∀ i, i + 3 < l.length → l.getD i 0 + 1 ≤ l.getD (i + 3) 0) →
    l.countP (fun t => decide (s ≤ t) && decide (t < s + 1)) ≤ 3 := by
  intro l
  induction l with
  | nil => intro _ _; simp
  | cons a tl ih =>
      intro hpair hspace
      have htl : List.Pairwise (· ≤ ·) tl := (List.pairwise_cons.mp hpair).2
      rw [List.countP_cons]
      by_cases hpa : (decide (s ≤ a) && decide (a < s + 1)) = true
      · -- the head lies in the window: entries from index 2 of the tail on
        -- are at least `a + 1 ≥ s + 1`, hence outside the window
        have hsa : s ≤ a := by
          have h := (Bool.and_eq_true _ _).mp hpa
          exact of_decide_eq_true h.1
        have hdrop : ∀ x ∈ tl.drop 2,
            ¬ ((decide (s ≤ x) && decide (x < s + 1)) = true) := by
          intro x hx
          obtain ⟨⟨k, hk⟩, hget⟩ := List.mem_iff_get.mp hx
          have hk' : 2 + k < tl.length := by
            rw [List.length_drop] at hk; omega
          have hxeq : x = tl.get ⟨2 + k, hk'⟩ := by
            rw [← hget]
            exact (List.get_drop tl hk').symm
          have hlen : 3 < (a :: tl).length := by simp; omega
          have h3 : (a :: tl).getD 0 0 + 1 ≤ (a :: tl).getD 3 0 := hspace 0 hlen
          have h2l : 2 < tl.length := by omega
          have hg3 : (a :: tl).getD 3 0 = tl.get ⟨2, h2l⟩ := by
            rw [List.getD_cons_succ]
            exact List.getD_eq_get tl 0 h2l
          have hmono : tl.get ⟨2, h2l⟩ ≤ tl.get ⟨2 + k, hk'⟩ := by
            rcases Nat.eq_zero_or_pos k with hk0 | hk0
            · subst hk0; exact le_rfl
            · exact List.pairwise_iff_get.mp htl ⟨2, h2l⟩ ⟨2 + k, hk'⟩
                (by simp; omega)
          have hx1 : s + 1 ≤ x := by
            rw [hxeq]
            have ha0 : (a :: tl).getD 0 0 = a := rfl
            rw [ha0, hg3] at h3
            linarith
          rw [Bool.and_eq_true, decide_eq_true_iff, decide_eq_true_iff]
          rintro ⟨-, h2⟩
          linarith
        have hsplit : tl.countP (fun t => decide (s ≤ t) && decide (t < s + 1)) =
            (tl.take 2).countP (fun t => decide (s ≤ t) && decide (t < s + 1)) +
            (tl.drop 2).countP (fun t => decide (s ≤ t) && decide (t < s + 1)) := by
          rw [← List.countP_append, List.take_append_drop]
        have htake : (tl.take 2).countP
            (fun t => decide (s ≤ t) && decide (t < s + 1)) ≤ 2 :=
          le_trans (List.countP_le_length _) (by simp)
        have hdrop0 : (tl.drop 2).countP
            (fun t => decide (s ≤ t) && decide (t < s + 1)) = 0 :=
          List.countP_eq_zero.mpr hdrop
        have : tl.countP (fun t => decide (s ≤ t) && decide (t < s + 1)) ≤ 2 := by
          rw [hsplit, hdrop0]; omega
        split <;> omega
      · have hsp : ∀ i, i + 3 < tl.length → tl.getD i 0 + 1 ≤ tl.getD (i + 3) 0 := by
          intro i hi
          have h := hspace (i + 1) (by simp; omega)
          simpa [List.getD_cons_succ] using h
        have := ih htl hsp
        rw [if_neg hpa]
        omega

/-- A `_rate_limit` call never records a timestamp earlier than its entry
time (the sleep, when taken, is positive). -/
lemma rateLimitStep_fst_ge_now (w : List ℚ) (now : ℚ) :
    now ≤ (rateLimitStep w now).1 := by
  unfold rateLimitStep rateLimitRecord
  by_cases h3 : w.length = 3
  · by_cases hel : now - w.headI < 1
    · simp only [h3, if_true, hel]
      linarith
    · simp [h3, hel]
  · simp [h3]

/-- When the window is full, the recorded timestamp is at least 1 second
after the evicted oldest entry, provided the call enters no earlier than
that entry. -/
lemma rateLimitStep_fst_ge_head (w : List ℚ) (now : ℚ) (h3 : w.length = 3) :
    w.headI + 1 ≤ (rateLimitStep w now).1 := by
  unfold rateLimitStep rateLimitRecord
  by_cases hel : now - w.headI < 1
  · simp only [h3, if_true, hel]
    linarith
  · simp only [h3, if_true, hel, if_false]
    linarith

/-- Safety invariant of sequential `_rate_limit` calls: starting from a
window `w` of at most 3 nondecreasing timestamps all at or before `last`,
the concatenation of the window and all subsequently recorded timestamps is
nondecreasing, and every recorded timestamp is at least 1 second after the
timestamp three positions earlier. -/
lemma rateLimitRun_invariant (gaps : List ℚ) :
    ∀ (w : List ℚ) (last : ℚ), w.length ≤ 3 →
    List.Chain' (· ≤ ·) w → (∀ x ∈ w, x ≤ last) →
    (∀ δ ∈ gaps, 0 ≤ δ) →
    List.Chain' (· ≤ ·) (w ++ rateLimitRun w last gaps) ∧
    (∀ i, i + 3 < (w ++ rateLimitRun w last gaps).length → w.length ≤ i + 3 →
      (w ++ rateLimitRun w last gaps).getD i 0 + 1 ≤
        (w ++ rateLimitRun w last gaps).getD (i + 3) 0) := by
  induction gaps with
  | nil =>
      intro w last hlen hchain _hlast _hgaps
      refine ⟨by simpa [rateLimitRun] using hchain, ?_⟩
      intro i hi _hw
      rw [rateLimitRun] at hi
      simp at hi
      omega
  | cons δ rest ih =>
      intro w last hlen hchain hlast hgaps
      have hδ : 0 ≤ δ := hgaps δ (by simp)
      have hrest : ∀ x ∈ rest, 0 ≤ x := fun x hx => hgaps x (by simp [hx])
      set now := last + δ with hnow
      set t := (rateLimitStep w now).1 with ht
      have hnt : now ≤ t := rateLimitStep_fst_ge_now w now
      have hlt : last ≤ t := by linarith
      have hxt : ∀ x ∈ w, x ≤ t := fun x hx => le_trans (hlast x hx) hlt
      have hrun : rateLimitRun w last (δ :: rest) =
          t :: rateLimitRun (rateLimitStep w now).2 t rest := rfl
      by_cases h3 : w.length = 3
      · -- full window: w = [a, b, c], the oldest entry a is evicted
        obtain ⟨a, b, c, hw⟩ : ∃ a b c, w = [a, b, c] := by
          match w, h3 with
          | [a, b, c], _ => exact ⟨a, b, c, rfl⟩
        subst hw
        have hsnd : (rateLimitStep [a, b, c] now).2 = [b, c, t] := by
          unfold rateLimitStep
          simp [ht]
          rfl
        have hchain' : List.Chain' (· ≤ ·) [b, c, t] := by
          rw [List.chain'_cons] at hchain
          rcases List.chain'_cons.mp hchain.2 with ⟨hbc, -⟩
          exact List.chain'_cons.mpr ⟨hbc, List.chain'_cons.mpr
            ⟨hxt c (by simp), List.chain'_singleton t⟩⟩
        have hxt' : ∀ x ∈ [b, c, t], x ≤ t := by
          intro x hx
          rcases List.mem_cons.mp hx with hxb | hx
          · exact hxb ▸ hxt b (by simp)
          rcases List.mem_cons.mp hx with hxc | hx
          · exact hxc ▸ hxt c (by simp)
          · simp at hx
            exact hx ▸ le_rfl
        have hih := ih [b, c, t] t (by simp) hchain' hxt' hrest
        rw [hsnd] at hrun
        have hcc : [a, b, c] ++ rateLimitRun [a, b, c] last (δ :: rest) =
            a :: ([b, c, t] ++ rateLimitRun [b, c, t] t rest) := by
          rw [hrun]
          simp
        rw [hcc]
        constructor
        · refine List.chain'_cons.mpr ⟨?_, hih.1⟩
          rw [List.chain'_cons] at hchain
          exact hchain.1
        · intro i hi _hw
          cases i with
          | zero =>
              have hkey : a + 1 ≤ t := by
                have := rateLimitStep_fst_ge_head [a, b, c] now rfl
                simpa using this
              have h0 : (a :: ([b, c, t] ++ rateLimitRun [b, c, t] t rest)).getD 0 0 =
                  a := rfl
              have h3' : (a :: ([b, c, t] ++ rateLimitRun [b, c, t] t rest)).getD 3 0 =
                  t := by
                simp [List.cons_append, List.getD_cons_succ, List.getD_cons_zero]
              rw [h0, h3']
              exact hkey
          | succ j =>
              rw [List.getD_cons_succ, List.getD_cons_succ]
              have hlen' : j + 3 < ([b, c, t] ++ rateLimitRun [b, c, t] t rest).length := by
                simp only [List.length_cons] at hi
                omega
              have := hih.2 j hlen' (by simp)
              simpa using this
      · -- window not yet full: nothing is evicted
        have hsnd : (rateLimitStep w now).2 = w ++ [t] := by
          unfold rateLimitStep
          simp [ht, h3]
          rfl
        have hchain' : List.Chain' (· ≤ ·) (w ++ [t]) := by
          apply List.chain'_append.mpr
          refine ⟨hchain, List.chain'_singleton t, ?_⟩
          intro x hx y hy
          simp at hy
          subst hy
          exact hxt x (List.mem_of_mem_getLast? hx)
        have hxt' : ∀ x ∈ w ++ [t], x ≤ t := by
          intro x hx
          rcases List.mem_append.mp hx with hxw | hxt1
          · exact hxt x hxw
          · simp at hxt1
            exact hxt1 ▸ le_rfl
        have hih := ih (w ++ [t]) t (by simp; omega) hchain' hxt' hrest
        rw [hsnd] at hrun
        have hcc : w ++ rateLimitRun w last (δ :: rest) =
            (w ++ [t]) ++ rateLimitRun (w ++ [t]) t rest := by
          rw [hrun]
          simp
        rw [hcc]
        refine ⟨hih.1, ?_⟩
        intro i hi hw
        have hw' : (w ++ [t]).length ≤ i + 3 := by
          simp only [List.length_append, List.length_singleton]
          omega
        exact hih.2 i hi hw'

/-- C2: for every sequence of sequential `_rate_limit` calls on one instance
(window size 3), never more than 3 requests start within any 1-second
sliding window `[s, s+1)`; and whenever the window already holds 3
timestamps whose oldest is less than 1 second old, the call sleeps exactly
`1.1 - elapsed` seconds before recording the current timestamp, evicting the
oldest entry. -/
theorem rate_limit_sliding_window (t0 : ℚ) (gaps : List ℚ)
    (hgaps : ∀ δ ∈ gaps, 0 ≤ δ) :
    (∀ s : ℚ, (rateLimitRun [] t0 gaps).countP
        (fun t => decide (s ≤ t) && decide (t < s + 1)) ≤ 3) ∧
    (∀ (w : List ℚ) (now : ℚ), w.length = 3 → now - w.headI < 1 →
      rateLimitStep w now =
        (now + (11/10 - (now - w.headI)),
         w.tail ++ [now + (11/10 - (now - w.headI))])) := by
  constructor
  · intro s
    have h := rateLimitRun_invariant gaps [] t0 (by simp) (by simp) (by simp) hgaps
    rw [List.nil_append] at h
    have hpair : List.Pairwise (· ≤ ·) (rateLimitRun [] t0 gaps) :=
      List.chain'_iff_pairwise.mp h.1
    apply sorted_spaced_count_le_three s _ hpair
    intro i hi
    exact h.2 i hi (by simp)
  · intro w now h3 hel
    unfold rateLimitStep rateLimitRecord
    simp [h3, hel]

/-- Witness for C2: a burst of four back-to-back calls still has at most 3
recorded timestamps in the window starting at time 0. -/
theorem rate_limit_sliding_window_witness :
    (rateLimitRun [] 0 [0, 0, 0, 0]).countP
      (fun t => decide ((0 : ℚ) ≤ t) && decide (t < 0 + 1)) ≤ 3 :=
  (rate_limit_sliding_window 0 [0, 0, 0, 0]
    (by intro δ hδ; simp at hδ; subst hδ; norm_num)).1 0

end AutoReposter
